import Mathlib

/-!
Shallow embedding of the `underfive-ocr-recepciones` pipeline
(`src/main.py` and `src/parrotfy_sync.py`) and proofs about it.

Machine integers are modelled by `Nat`/`Int`; pixel coordinates by `Int`
and horizontal centers by `Rat` (the source computes `left + width/2` as a
float on integer data, which is exact in the rationals); confidences by
`Rat`.  External libraries (the OCR engine, pandas date parsing, the tz
database, Python `float` parsing, PNG encoding) are modelled as explicit
data or function parameters; everything the repository itself computes is
embedded as executable Lean definitions.
-/

/-- The apostrophe character (ASCII 39), written via `Char.ofNat`. -/
def aposChar : Char := Char.ofNat 39

/-- Python `str.strip()` on a list of characters: drop whitespace from
both ends. -/
def pyStrip (l : List Char) : List Char :=
  ((l.dropWhile Char.isWhitespace).reverse.dropWhile Char.isWhitespace).reverse

/-- Python `str.strip()` on a `String`. -/
def pyStripStr (s : String) : String :=
  String.mk (pyStrip s.data)

/-- Python `s.lstrip("'")`: drop every leading apostrophe. -/
def lstripApos (l : List Char) : List Char :=
  l.dropWhile (fun c => c = aposChar)

/-- Python `re.sub(r"\D", "", s)`: keep only decimal digits. -/
def digitsOnly (l : List Char) : List Char :=
  l.filter Char.isDigit

/-- `clean_sku` from `src/main.py`: `None` maps to `""`; otherwise strip
whitespace, drop leading apostrophes, keep only digits. -/
def clean_sku : Option String → String
  | none => ""
  | some raw => String.mk (digitsOnly (lstripApos (pyStrip raw.data)))

/-- The canonicalizer as the spec words it (`spec.md` §4.5): strip a
single leading apostrophe if present, then remove every remaining
non-digit character.  Used only to compare against `clean_sku`. -/
def specCanonicalize (raw : String) : String :=
  let l := match raw.data with
    | [] => []
    | c :: rest => if c = aposChar then rest else c :: rest
  String.mk (digitsOnly l)

/-- Python `str.lower()` restricted to what the header search needs:
map every character to upper case so that matching is case-insensitive
(the source passes `case=False` to `str.contains`). -/
def upperChars (l : List Char) : List Char :=
  l.map Char.toUpper

/-- Whether `pat` occurs at the head of `text`. -/
def leadsWith : List Char → List Char → Bool
  | _, [] => true
  | [], _ :: _ => false
  | c :: t, p :: ps => c = p && leadsWith t ps

/-- Whether `pat` occurs somewhere inside `text` (substring search). -/
def hasSub : List Char → List Char → Bool
  | [], pat => leadsWith [] pat
  | c :: t, pat => leadsWith (c :: t) pat || hasSub t pat

/-- Case-insensitive substring containment, modelling
`df["text"].str.contains(pattern, case=False, regex=True)` for the two
literal patterns `"ENVIAD"` and `"RECIB"` used by the source. -/
def containsCI (text pat : String) : Bool :=
  hasSub (upperChars text.data) (upperChars pat.data)

/-- Whether a run of at least `n` consecutive digits starts somewhere in
`l` (used to state claims about the 10–16-digit identifier search). -/
def hasRun (n : Nat) : List Char → Bool
  | [] => decide (n = 0)
  | c :: rest =>
    decide (n ≤ ((c :: rest).takeWhile Char.isDigit).length) || hasRun n rest

/-- `re.search(r"(\d{10,16})", txt)` from `parse_table`: scan left to
right; at the first position where at least 10 consecutive digits start,
return those digits truncated to 16 (the regex is greedy with an upper
bound of 16); otherwise `none`. -/
def findSku : List Char → Option (List Char)
  | [] => none
  | c :: rest =>
    let run := (c :: rest).takeWhile Char.isDigit
    if 10 ≤ run.length then some (run.take 16) else findSku rest

/-- Numeric value of a digit string, modelling Python `int(text)` on a
string that full-matches `\d+`. -/
def natOfDigits (l : List Char) : Nat :=
  l.foldl (fun a c => 10 * a + (c.toNat - 48)) 0

/-- Python `int(t)` for a token text made of digits. -/
def natOfText (s : String) : Nat :=
  natOfDigits s.data

/-- `t.str.fullmatch(r"\d+")`: non-empty and all digits. -/
def isDigitsStr (s : String) : Bool :=
  !s.data.isEmpty && s.data.all Char.isDigit

/-- One OCR token, as `parse_table` sees it after `dropna` and dropping
empty texts: a stripped text, bounding-box `left`/`width` and a
confidence.  `top`, `height` and the grouping keys are not consulted by
the embedded code; grouping by `(block_num, par_num, line_num)` is
represented by handing `parse_table` the token list of each group. -/
structure OcrToken where
  text : String
  left : Int
  width : Int
  conf : Rat
deriving Repr, DecidableEq

/-- Horizontal center `left + width/2` of a token (exact, in `ℚ`). -/
def cx (t : OcrToken) : Rat :=
  (t.left : Rat) + (t.width : Rat) / 2

/-- A header column span `(x1, x2)`. -/
abbrev Span : Type := Int × Int

/-- Ordering used by `sort_values("left")`. -/
def byLeft (a b : OcrToken) : Prop := a.left ≤ b.left

instance : DecidableRel byLeft := fun a b => Int.decLe a.left b.left

instance : IsTotal OcrToken byLeft := ⟨fun a b => Int.le_total a.left b.left⟩

instance : IsTrans OcrToken byLeft := ⟨fun _ _ _ h1 h2 => le_trans h1 h2⟩

instance : IsRefl OcrToken byLeft := ⟨fun a => le_refl a.left⟩

/-- `g.sort_values("left")`. -/
def sortByLeft (g : List OcrToken) : List OcrToken :=
  List.insertionSort byLeft g

/-- Ordering used by `sort_values(["conf","width"], ascending=[False,False])`:
`a` comes no later than `b` when `a` beats `b` on confidence, or ties on
confidence and has at least the width. -/
def confWidthGE (a b : OcrToken) : Prop :=
  b.conf < a.conf ∨ (a.conf = b.conf ∧ b.width ≤ a.width)

instance : DecidableRel confWidthGE := fun a b => by
  unfold confWidthGE; infer_instance

instance : IsTotal OcrToken confWidthGE := by
  constructor
  intro a b
  unfold confWidthGE
  rcases lt_trichotomy a.conf b.conf with h | h | h
  · exact Or.inr (Or.inl h)
  · rcases le_total b.width a.width with hw | hw
    · exact Or.inl (Or.inr ⟨h, hw⟩)
    · exact Or.inr (Or.inr ⟨h.symm, hw⟩)
  · exact Or.inl (Or.inl h)

instance : IsTrans OcrToken confWidthGE := by
  constructor
  intro a b c hab hbc
  unfold confWidthGE at *
  rcases hab with h1 | ⟨h1, w1⟩
  · rcases hbc with h2 | ⟨h2, w2⟩
    · exact Or.inl (h2.trans h1)
    · exact Or.inl (h2 ▸ h1)
  · rcases hbc with h2 | ⟨h2, w2⟩
    · exact Or.inl (h1 ▸ h2)
    · exact Or.inr ⟨h1.trans h2, w2.trans w1⟩

/-- `find_col_span` from `parse_table` in `src/main.py`: filter tokens
whose text contains the pattern case-insensitively; if none, `None`;
otherwise sort by confidence descending then width descending, take the
first, and return `(left, left + width)`. -/
def find_col_span (df : List OcrToken) (pat : String) : Option Span :=
  let m := df.filter (fun t => containsCI t.text pat)
  match (List.insertionSort confWidthGE m).head? with
  | none => none
  | some r => some (r.left, r.left + r.width)

/-- One extracted record `{"sku": ..., "un_recibidas": ...}`. -/
structure Item where
  sku : String
  un_recibidas : Nat
deriving Repr, DecidableEq

/-- `line_txt.replace(" ", "")` as a character list. -/
def stripSpaces (s : String) : List Char :=
  s.data.filter (fun c => c ≠ ' ')

/-- Whether a digit-token's center falls inside the widened span
`[x1 - 5, x2 + 5]`. -/
def inSpanTok (sp : Span) (t : OcrToken) : Bool :=
  decide ((sp.1 : Rat) - 5 ≤ cx t) && decide (cx t ≤ (sp.2 : Rat) + 5)

/-- The three-tier quantity policy of `parse_table`, on the digit-token
list of one line (already sorted by `left`) and the rightmost digit
token `tLast`: `rec1` is the rightmost digit token whose center falls
under the widened RECIBIDAS span, `rec2` defaults to 0 when any header
was detected, and the final fallback is the rightmost digit token. -/
def quantityOf (span_env span_rec : Option Span) (digits : List OcrToken)
    (tLast : OcrToken) : Nat :=
  let rec1 : Option Nat :=
    match span_rec with
    | none => none
    | some sp =>
      match (digits.filter (inSpanTok sp)).getLast? with
      | none => none
      | some t => some (natOfText t.text)
  let rec2 : Option Nat :=
    match rec1 with
    | some v => some v
    | none => if span_rec.isSome || span_env.isSome then some 0 else none
  match rec2 with
  | some v => v
  | none => natOfText tLast.text

/-- The loop body of `parse_table` for one `(block, par, line)` group
`g`: sort by `left`, join the texts with spaces, look for the 10–16
digit identifier in the space-stripped text, keep the digit-only tokens,
and resolve the quantity by the three-tier policy of the source. -/
def parseLine (span_env span_rec : Option Span) (g : List OcrToken) : Option Item :=
  let gs := sortByLeft g
  match findSku (stripSpaces (String.intercalate " " (gs.map OcrToken.text))) with
  | none => none
  | some skuChars =>
    let digits := sortByLeft (gs.filter (fun t => isDigitsStr t.text))
    match digits.getLast? with
    | none => none
    | some tLast => some ⟨String.mk skuChars, quantityOf span_env span_rec digits tLast⟩

/-- The space-stripped concatenated text of a line group, as
`parse_table` builds it. -/
def lineTxt (g : List OcrToken) : List Char :=
  stripSpaces (String.intercalate " " ((sortByLeft g).map OcrToken.text))

/-- The digit-only tokens of a line group, sorted by `left`, as
`parse_table` builds them. -/
def lineDigits (g : List OcrToken) : List OcrToken :=
  sortByLeft ((sortByLeft g).filter (fun t => isDigitsStr t.text))

/-- `parse_table` from `src/main.py`, over the OCR token groups of one
preprocessed image: locate the ENVIADAS / RECIBIDAS header spans over
the whole token set, then extract one candidate record per line group. -/
def parse_table (lines : List (List OcrToken)) : List Item :=
  let df := lines.flatten
  let span_env := find_col_span df "ENVIAD"
  let span_rec := find_col_span df "RECIB"
  lines.filterMap (parseLine span_env span_rec)

/-! ### SHA-256 (`hashlib.sha256(...).hexdigest()` used by `hash_image`)

FIPS 180-4 over byte lists; 32-bit words are `Nat`s reduced `% 2^32`. -/

/-- `2^32`. -/
def M32 : Nat := 4294967296

/-- Right rotation of a 32-bit word. -/
def rotr32 (x n : Nat) : Nat := ((x >>> n) ||| (x <<< (32 - n))) % M32

/-- SHA-256 `Ch`. -/
def shaCh (x y z : Nat) : Nat := (x &&& y) ^^^ ((x ^^^ (M32 - 1)) &&& z)

/-- SHA-256 `Maj`. -/
def shaMaj (x y z : Nat) : Nat := (x &&& y) ^^^ (x &&& z) ^^^ (y &&& z)

/-- SHA-256 `Σ0`. -/
def bigSigma0 (x : Nat) : Nat := rotr32 x 2 ^^^ rotr32 x 13 ^^^ rotr32 x 22

/-- SHA-256 `Σ1`. -/
def bigSigma1 (x : Nat) : Nat := rotr32 x 6 ^^^ rotr32 x 11 ^^^ rotr32 x 25

/-- SHA-256 `σ0`. -/
def smallSigma0 (x : Nat) : Nat := rotr32 x 7 ^^^ rotr32 x 18 ^^^ (x >>> 3)

/-- SHA-256 `σ1`. -/
def smallSigma1 (x : Nat) : Nat := rotr32 x 17 ^^^ rotr32 x 19 ^^^ (x >>> 10)

/-- The 64 SHA-256 round constants, in decimal (the cube-root fractional
words of FIPS 180-4 section 4.2.2). -/
def K256 : List Nat :=
  [1116352408, 1899447441, 3049323471, 3921009573,
   961987163, 1508970993, 2453635748, 2870763221,
   3624381080, 310598401, 607225278, 1426881987,
   1925078388, 2162078206, 2614888103, 3248222580,
   3835390401, 4022224774, 264347078, 604807628,
   770255983, 1249150122, 1555081692, 1996064986,
   2554220882, 2821834349, 2952996808, 3210313671,
   3336571891, 3584528711, 113926993, 338241895,
   666307205, 773529912, 1294757372, 1396182291,
   1695183700, 1986661051, 2177026350, 2456956037,
   2730485921, 2820302411, 3259730800, 3345764771,
   3516065817, 3600352804, 4094571909, 275423344,
   430227734, 506948616, 659060556, 883997877,
   958139571, 1322822218, 1537002063, 1747873779,
   1955562222, 2024104815, 2227730452, 2361852424,
   2428436474, 2756734187, 3204031479, 3329325298]

/-- The eight 32-bit working registers of the compression function. -/
structure Hash8 where
  a : Nat
  b : Nat
  c : Nat
  d : Nat
  e : Nat
  f : Nat
  g : Nat
  h : Nat
deriving Repr, DecidableEq

/-- SHA-256 initial hash value. -/
def shaInit : Hash8 :=
  ⟨1779033703, 3144134277, 1013904242, 2773480762,
   1359893119, 2600822924, 528734635, 1541459225⟩

/-- Pad a byte message: append `0x80`, zeros to 56 mod 64, and the
64-bit big-endian bit length. -/
def sha256pad (msg : List Nat) : List Nat :=
  let L := msg.length
  let k := (119 - L % 64) % 64
  let bl := 8 * L
  msg ++ [128] ++ List.replicate k 0 ++
    [(bl >>> 56) % 256, (bl >>> 48) % 256, (bl >>> 40) % 256, (bl >>> 32) % 256,
     (bl >>> 24) % 256, (bl >>> 16) % 256, (bl >>> 8) % 256, bl % 256]

/-- Big-endian grouping of bytes into 32-bit words. -/
def bytesToWords : List Nat → List Nat
  | b0 :: b1 :: b2 :: b3 :: rest =>
    (((b0 % 256) <<< 24) + ((b1 % 256) <<< 16) + ((b2 % 256) <<< 8) + (b3 % 256))
      :: bytesToWords rest
  | _ => []

/-- Split a word list into blocks of 16 words (structural recursion so
that the kernel can evaluate digests). -/
def chunkWords : List Nat → List (List Nat)
  | a0 :: a1 :: a2 :: a3 :: a4 :: a5 :: a6 :: a7 ::
    a8 :: a9 :: a10 :: a11 :: a12 :: a13 :: a14 :: a15 :: rest =>
    [a0, a1, a2, a3, a4, a5, a6, a7, a8, a9, a10, a11, a12, a13, a14, a15]
      :: chunkWords rest
  | [] => []
  | l => [l]

/-- Extend a 16-word block to the 64-word message schedule. -/
def schedule (block : List Nat) : List Nat :=
  (List.range 48).foldl
    (fun ws _ =>
      let n := ws.length
      ws ++ [(smallSigma1 (ws.getD (n - 2) 0) + ws.getD (n - 7) 0 +
              smallSigma0 (ws.getD (n - 15) 0) + ws.getD (n - 16) 0) % M32])
    block

/-- One round of the compression function with round constant `k` and
schedule word `w`. -/
def shaRound (s : Hash8) (kw : Nat × Nat) : Hash8 :=
  let t1 := (s.h + bigSigma1 s.e + shaCh s.e s.f s.g + kw.1 + kw.2) % M32
  let t2 := (bigSigma0 s.a + shaMaj s.a s.b s.c) % M32
  ⟨(t1 + t2) % M32, s.a, s.b, s.c, (s.d + t1) % M32, s.e, s.f, s.g⟩

/-- Compress one 16-word block into the running hash. -/
def compressBlock (s : Hash8) (block : List Nat) : Hash8 :=
  let t := (K256.zip (schedule block)).foldl shaRound s
  ⟨(s.a + t.a) % M32, (s.b + t.b) % M32, (s.c + t.c) % M32, (s.d + t.d) % M32,
   (s.e + t.e) % M32, (s.f + t.f) % M32, (s.g + t.g) % M32, (s.h + t.h) % M32⟩

/-- SHA-256 of a byte message, as the final eight hash words. -/
def sha256words (msg : List Nat) : Hash8 :=
  (chunkWords (bytesToWords (sha256pad msg))).foldl compressBlock shaInit

/-- Lower-case hexadecimal digit. -/
def hexChar (n : Nat) : Char :=
  if n < 10 then Char.ofNat (48 + n) else Char.ofNat (87 + n)

/-- Eight hex characters of one 32-bit word (big-endian nibbles). -/
def wordToHex (w : Nat) : List Char :=
  [hexChar (w / 268435456 % 16), hexChar (w / 16777216 % 16),
   hexChar (w / 1048576 % 16), hexChar (w / 65536 % 16),
   hexChar (w / 4096 % 16), hexChar (w / 256 % 16),
   hexChar (w / 16 % 16), hexChar (w % 16)]

/-- `hashlib.sha256(bytes).hexdigest()`. -/
def sha256hex (msg : List Nat) : String :=
  let s := sha256words msg
  String.mk (([s.a, s.b, s.c, s.d, s.e, s.f, s.g, s.h].map wordToHex).flatten)

/-- `hash_image` from `src/main.py`: serialize the (preprocessed) image
with the PNG encoder — an external library function, taken as a
parameter — and digest the encoded bytes with SHA-256. -/
def hash_image {α : Type} (pngEncode : α → List Nat) (img : α) : String :=
  sha256hex (pngEncode img)

/-! ### Date handling (`parse_gmail_date`) -/

/-- A wall-clock timestamp broken into fields, the shape that
`strftime("%Y-%m-%d %H:%M:%S")` consumes. -/
structure TS where
  y : Nat
  mo : Nat
  d : Nat
  h : Nat
  mi : Nat
  s : Nat
deriving Repr, DecidableEq

/-- Two-digit zero-padded field (`%m`, `%d`, `%H`, `%M`, `%S`). -/
def fmt2 (n : Nat) : List Char :=
  [Nat.digitChar (n / 10 % 10), Nat.digitChar (n % 10)]

/-- Four-digit zero-padded year (`%Y` for years below 10000). -/
def fmt4 (n : Nat) : List Char :=
  [Nat.digitChar (n / 1000 % 10), Nat.digitChar (n / 100 % 10),
   Nat.digitChar (n / 10 % 10), Nat.digitChar (n % 10)]

/-- `strftime("%Y-%m-%d %H:%M:%S")`. -/
def fmtTS (t : TS) : String :=
  String.mk (fmt4 t.y ++ '-' :: fmt2 t.mo ++ '-' :: fmt2 t.d ++
             ' ' :: fmt2 t.h ++ ':' :: fmt2 t.mi ++ ':' :: fmt2 t.s)

/-- `parse_gmail_date` from `src/main.py`.  The pandas parser
(`pd.to_datetime(..., utc=True, errors="coerce")`, with `NaT` mapped to
`none`) and the tz-database conversion to `America/Santiago` are
external library functions, taken as parameters; `now` is the current
local time used by the `except` fallback.  An absent header
(`headers.get("date")` returning `None`) also parses to `NaT` and hence
falls back. -/
def parse_gmail_date (pdToDatetime : String → Option TS)
    (tzSantiago : TS → TS) (now : TS) (date : Option String) : String :=
  match date with
  | none => fmtTS now
  | some s =>
    match pdToDatetime s with
    | none => fmtTS now
    | some t => fmtTS (tzSantiago t)

/-! ### The `main()` extraction run of `src/main.py` -/

/-- One ledger row, in the sheet's column order
`fecha_correo, sku, un_recibidas, message_id, img_hash, origen`. -/
structure Row where
  fecha : String
  sku : String
  un_rec : String
  message_id : String
  img_hash : String
  origin : String
deriving Repr, DecidableEq

/-- The dedup key `(message_id, sku, un_recibidas)`. -/
abbrev RKey := String × String × String

/-- Key of an output row. -/
def rowKey (r : Row) : RKey := (r.message_id, r.sku, r.un_rec)

/-- `read_existing` from `src/main.py` over a sheet carrying the
standard header: every persisted row is mapped to its key, with the SKU
re-normalized through `clean_sku` (defensive normalization of legacy
apostrophes). -/
def read_existing (sheet : List Row) : List RKey :=
  sheet.map (fun r => (r.message_id, clean_sku (some r.sku), r.un_rec))

/-- One image of a message, after preprocessing: its origin tag, the
PNG-encoded bytes of the preprocessed image (the external encoder's
output, hashed by `hash_image`), and the OCR token groups (the external
OCR engine's output, consumed by `parse_table`). -/
structure MsgImage where
  origin : String
  pngBytes : List Nat
  lines : List (List OcrToken)

/-- One fetched message: its id, its `Date` header if present, and its
decodable images. -/
structure GMsg where
  id : String
  date : Option String
  images : List MsgImage

/-- The inner loop of `main()` over the items of one image: canonicalize
the SKU and drop the item if it comes out empty, build the key
`(message_id, sku_clean, un_rec)`, skip it when the key is already in
`existing`, and otherwise emit the six-column row.  The source never
adds the key to `existing` inside the run. -/
def processItems (existing : List RKey) (message_id fecha ihash origin : String) :
    List Item → List Row
  | [] => []
  | it :: rest =>
    let sc := clean_sku (some it.sku)
    if sc = "" then processItems existing message_id fecha ihash origin rest
    else
      let un := pyStripStr (toString it.un_recibidas)
      if (message_id, sc, un) ∈ existing then
        processItems existing message_id fecha ihash origin rest
      else
        ⟨fecha, sc, un, message_id, ihash, origin⟩ ::
          processItems existing message_id fecha ihash origin rest

/-- The loop of `main()` over the images of one message. -/
def processImages (existing : List RKey) (message_id fecha : String) :
    List MsgImage → List Row
  | [] => []
  | im :: rest =>
    processItems existing message_id fecha (hash_image MsgImage.pngBytes im)
        im.origin (parse_table im.lines)
      ++ processImages existing message_id fecha rest

/-- The row-building loop of `main()` over the fetched messages: the
batch of new rows appended at the end of a run. -/
def mainRows (pdToDatetime : String → Option TS) (tzSantiago : TS → TS)
    (now : TS) (existing : List RKey) : List GMsg → List Row
  | [] => []
  | m :: rest =>
    processImages existing m.id
        (parse_gmail_date pdToDatetime tzSantiago now m.date) m.images
      ++ mainRows pdToDatetime tzSantiago now existing rest

/-- The dedup keys of the records extracted from one item list (items
whose SKU canonicalizes to empty carry no key: they are dropped before
any key is built). -/
def itemKeys (message_id : String) (items : List Item) : List RKey :=
  items.filterMap (fun it =>
    let sc := clean_sku (some it.sku)
    if sc = "" then none
    else some (message_id, sc, pyStripStr (toString it.un_recibidas)))

/-- Keys extracted from the images of one message. -/
def imageKeys (message_id : String) (images : List MsgImage) : List RKey :=
  (images.map (fun im => itemKeys message_id (parse_table im.lines))).flatten

/-- Keys extracted from a message list. -/
def msgKeys (msgs : List GMsg) : List RKey :=
  (msgs.map (fun m => imageKeys m.id m.images)).flatten

/-! ### `pick_rows` of `src/parrotfy_sync.py` -/

/-- Python `h.strip().lower()` used on header cells. -/
def stripLower (h : String) : String :=
  String.mk ((pyStrip h.data).map Char.toLower)

/-- The row loop of `pick_rows`, over `enumerate(rows[1:], start=2)`.
`pyIntFloat` models Python `int(float(·))`, `none` meaning the
conversion raised (in which case the source sets the quantity to 0). -/
def pickLoop (pyIntFloat : String → Option Int) (idx_sku idx_unr : Nat)
    (idx_flag : Option Nat) : Nat → List (List String) →
    List (String × Int) × List Nat
  | _, [] => ([], [])
  | i, r :: rest =>
    let next := pickLoop pyIntFloat idx_sku idx_unr idx_flag (i + 1) rest
    if r.length ≤ max idx_sku idx_unr then next
    else if (match idx_flag with
             | some j => decide (j < r.length) && decide (pyStripStr (r.getD j "") ≠ "")
             | none => false) then next
    else
      let sku := String.mk (digitsOnly (r.getD idx_sku "").data)
      if sku = "" then next
      else
        let qty : Int :=
          match pyIntFloat ((r.getD idx_unr "").replace "," ".") with
          | some q => q
          | none => 0
        if 0 < qty then ((sku, qty) :: next.1, i :: next.2) else next

/-- `pick_rows` from `src/parrotfy_sync.py`: read all values; empty
sheet gives empty output; otherwise normalize the header, locate the
`sku`, `un_recibidas` and optional `parrotfy_enviado` columns
(`header.index` raising on a missing mandatory column is modelled by
`none`), and run the selection loop. -/
def pick_rows (pyIntFloat : String → Option Int) (rows : List (List String)) :
    Option (List (String × Int) × List Nat) :=
  match rows with
  | [] => some ([], [])
  | header0 :: body =>
    let header := header0.map stripLower
    if "sku" ∈ header then
      if "un_recibidas" ∈ header then
        let idx_sku := header.indexOf "sku"
        let idx_unr := header.indexOf "un_recibidas"
        let idx_flag := if "parrotfy_enviado" ∈ header then
            some (header.indexOf "parrotfy_enviado") else none
        some (pickLoop pyIntFloat idx_sku idx_unr idx_flag 2 body)
      else none
    else none

/-- The forwarding filter as the claim words it: a row is selected
exactly when its canonicalized identifier is non-empty, its quantity
parses to a positive integer (a failed parse counting as 0), and its
sent-flag cell, when the flag column exists and the row reaches it, is
blank.  Used only to compare against `pick_rows`. -/
def specSelect (pyIntFloat : String → Option Int) (idx_sku idx_unr : Nat)
    (idx_flag : Option Nat) (r : List String) : Option (String × Int) :=
  let ident := String.mk (digitsOnly (r.getD idx_sku "").data)
  let qty : Int :=
    match pyIntFloat ((r.getD idx_unr "").replace "," ".") with
    | some q => q
    | none => 0
  let flagBlank : Bool :=
    match idx_flag with
    | some j => !(decide (j < r.length) && decide (pyStripStr (r.getD j "") ≠ ""))
    | none => true
  if ident ≠ "" ∧ flagBlank = true ∧ 0 < qty then some (ident, qty) else none

/-! ### Helper lemmas -/

theorem digitsOnly_dropWhile (p : Char → Bool)
    (hp : ∀ c, p c = true → c.isDigit = false) (l : List Char) :
    digitsOnly (l.dropWhile p) = digitsOnly l := by
  induction l with
  | nil => rfl
  | cons c rest ih =>
    by_cases hc : p c = true
    · rw [List.dropWhile_cons_of_pos hc, ih]
      simp [digitsOnly, List.filter_cons, hp c hc]
    · rw [List.dropWhile_cons_of_neg (by simpa using hc)]

theorem ws_not_digit (c : Char) (h : c.isWhitespace = true) : c.isDigit = false := by
  simp [Char.isWhitespace] at h
  rcases h with ((h | h) | h) | h <;> subst h <;> decide

theorem digitsOnly_reverse (l : List Char) :
    digitsOnly l.reverse = (digitsOnly l).reverse :=
  List.filter_reverse Char.isDigit l

theorem digitsOnly_pyStrip (l : List Char) : digitsOnly (pyStrip l) = digitsOnly l := by
  unfold pyStrip
  rw [digitsOnly_reverse, digitsOnly_dropWhile _ ws_not_digit, digitsOnly_reverse,
      digitsOnly_dropWhile _ ws_not_digit, List.reverse_reverse]

theorem digitsOnly_lstripApos (l : List Char) :
    digitsOnly (lstripApos l) = digitsOnly l := by
  unfold lstripApos
  refine digitsOnly_dropWhile _ (fun c hc => ?_) l
  have hc' : c = aposChar := by simpa using hc
  subst hc'
  decide

theorem clean_sku_eq_digits (raw : String) :
    clean_sku (some raw) = String.mk (digitsOnly raw.data) := by
  have h : clean_sku (some raw) = String.mk (digitsOnly (lstripApos (pyStrip raw.data))) := rfl
  rw [h, digitsOnly_lstripApos, digitsOnly_pyStrip]

theorem specCanonicalize_eq_digits (raw : String) :
    specCanonicalize raw = String.mk (digitsOnly raw.data) := by
  unfold specCanonicalize
  rcases hr : raw.data with _ | ⟨c, rest⟩
  · simp [hr, digitsOnly]
  · simp only [hr]
    by_cases hc : c = aposChar
    · subst hc
      have hd : aposChar.isDigit = false := by decide
      simp [digitsOnly, List.filter_cons, hd]
    · simp [hc]

theorem digitsOnly_idem (l : List Char) : digitsOnly (digitsOnly l) = digitsOnly l := by
  unfold digitsOnly
  rw [List.filter_filter]
  simp

theorem clean_sku_idem (raw : String) :
    clean_sku (some (clean_sku (some raw))) = clean_sku (some raw) := by
  rw [clean_sku_eq_digits raw, clean_sku_eq_digits, digitsOnly_idem]

theorem head_best {r : OcrToken → OcrToken → Prop} [DecidableRel r]
    [IsTotal OcrToken r] [IsTrans OcrToken r] [IsRefl OcrToken r]
    (l : List OcrToken) (t : OcrToken)
    (h : (List.insertionSort r l).head? = some t) :
    t ∈ l ∧ ∀ u ∈ l, r t u := by
  have hperm := List.perm_insertionSort r l
  have hsorted := List.sorted_insertionSort r l
  rcases hs : List.insertionSort r l with _ | ⟨t', rest⟩
  · rw [hs] at h; simp at h
  · rw [hs] at h hperm hsorted
    simp only [List.head?_cons, Option.some.injEq] at h
    subst h
    constructor
    · exact hperm.mem_iff.mp (List.mem_cons_self _ _)
    · intro u hu
      have hu' := hperm.mem_iff.mpr hu
      rcases List.mem_cons.mp hu' with h1 | h1
      · subst h1; exact IsRefl.refl _
      · exact (List.sorted_cons.mp hsorted).1 u h1

theorem getLast?_max {l : List OcrToken} (hs : List.Sorted byLeft l) {t : OcrToken}
    (h : l.getLast? = some t) : ∀ u ∈ l, u.left ≤ t.left := by
  induction l with
  | nil => simp at h
  | cons a rest ih =>
    rcases rest with _ | ⟨b, rest'⟩
    · simp at h
      subst h
      intro u hu
      simp at hu
      subst hu
      exact le_refl _
    · have h' : (b :: rest').getLast? = some t := by
        simpa [List.getLast?] using h
      have hs' := List.sorted_cons.mp hs
      intro u hu
      rcases List.mem_cons.mp hu with h1 | h1
      · subst h1
        exact hs'.1 t (List.mem_of_mem_getLast? h')
      · exact ih hs'.2 h' u h1

theorem mem_sortByLeft {t : OcrToken} {g : List OcrToken} :
    t ∈ sortByLeft g ↔ t ∈ g :=
  (List.perm_insertionSort byLeft g).mem_iff

theorem sorted_sortByLeft (g : List OcrToken) : List.Sorted byLeft (sortByLeft g) :=
  List.sorted_insertionSort byLeft g

theorem sortByLeft_filter_perm (p : OcrToken → Bool) (g : List OcrToken) :
    (sortByLeft ((sortByLeft g).filter p)).Perm (g.filter p) :=
  (List.perm_insertionSort byLeft _).trans
    ((List.perm_insertionSort byLeft g).filter p)

theorem mem_digits {p : OcrToken → Bool} {t : OcrToken} {g : List OcrToken} :
    t ∈ sortByLeft ((sortByLeft g).filter p) ↔ t ∈ g ∧ p t = true := by
  rw [(sortByLeft_filter_perm p g).mem_iff, List.mem_filter]

theorem parseLine_eq (se sr : Option Span) (g : List OcrToken) :
    parseLine se sr g =
      match findSku (lineTxt g) with
      | none => none
      | some skuChars =>
        match (lineDigits g).getLast? with
        | none => none
        | some tLast => some ⟨String.mk skuChars, quantityOf se sr (lineDigits g) tLast⟩ :=
  rfl

theorem findSku_none_of_noRun (l : List Char) (h : hasRun 10 l = false) :
    findSku l = none := by
  induction l with
  | nil => rfl
  | cons c rest ih =>
    simp only [hasRun, Bool.or_eq_false_iff, decide_eq_false_iff_not] at h
    unfold findSku
    rw [if_neg h.1]
    exact ih h.2

theorem hasRun_iff (n : Nat) (l : List Char) :
    hasRun n l = true ↔ ∃ i, n ≤ ((l.drop i).takeWhile Char.isDigit).length := by
  induction l with
  | nil =>
    simp only [hasRun, decide_eq_true_eq, List.drop_nil, List.takeWhile_nil,
      List.length_nil, Nat.le_zero]
    exact ⟨fun h => ⟨0, h⟩, fun ⟨_, h⟩ => h⟩
  | cons c rest ih =>
    simp only [hasRun, Bool.or_eq_true, decide_eq_true_eq, ih]
    constructor
    · rintro (h | ⟨i, hi⟩)
      · exact ⟨0, by simpa using h⟩
      · exact ⟨i + 1, by simpa [List.drop_succ_cons] using hi⟩
    · rintro ⟨i, hi⟩
      cases i with
      | zero => exact Or.inl (by simpa using hi)
      | succ i' => exact Or.inr ⟨i', by simpa [List.drop_succ_cons] using hi⟩

theorem findSku_at (l : List Char) (i : Nat)
    (hge : 10 ≤ ((l.drop i).takeWhile Char.isDigit).length)
    (hmin : ∀ j < i, ((l.drop j).takeWhile Char.isDigit).length < 10) :
    findSku l = some (((l.drop i).takeWhile Char.isDigit).take 16) := by
  induction l generalizing i with
  | nil => simp at hge
  | cons c rest ih =>
    cases i with
    | zero =>
      simp only [List.drop_zero] at hge ⊢
      unfold findSku
      rw [if_pos hge]
    | succ i' =>
      have h0 := hmin 0 (Nat.succ_pos i')
      simp only [List.drop_zero] at h0
      unfold findSku
      rw [if_neg (by omega)]
      simp only [List.drop_succ_cons] at hge ⊢
      exact ih i' hge (fun j hj => by
        have := hmin (j + 1) (by omega)
        simpa [List.drop_succ_cons] using this)

theorem mem_lineDigits {t : OcrToken} {g : List OcrToken} :
    t ∈ lineDigits g ↔ t ∈ g ∧ isDigitsStr t.text = true := by
  unfold lineDigits
  exact mem_digits

theorem sorted_lineDigits (g : List OcrToken) : List.Sorted byLeft (lineDigits g) :=
  sorted_sortByLeft _

theorem quantityOf_rule1 (se : Option Span) (sp : Span) (digits : List OcrToken)
    (tLast t0 : OcrToken) (h : (digits.filter (inSpanTok sp)).getLast? = some t0) :
    quantityOf se (some sp) digits tLast = natOfText t0.text := by
  simp [quantityOf, h]

theorem quantityOf_rule2a (se : Option Span) (sp : Span) (digits : List OcrToken)
    (tLast : OcrToken) (h : (digits.filter (inSpanTok sp)).getLast? = none) :
    quantityOf se (some sp) digits tLast = 0 := by
  simp [quantityOf, h]

theorem quantityOf_rule2b (sp : Span) (digits : List OcrToken) (tLast : OcrToken) :
    quantityOf (some sp) none digits tLast = 0 := by
  simp [quantityOf]

theorem quantityOf_rule3 (digits : List OcrToken) (tLast : OcrToken) :
    quantityOf none none digits tLast = natOfText tLast.text := by
  simp [quantityOf]

/-! ### Claim theorems -/

/-- C2: for every line cluster that yields a record, the quantity is
resolved by the three-tier policy in order: (1) with a "received"
(RECIBIDAS) header span, the quantity is the digit-token with the
largest `left` among those whose horizontal center lies within
`[span.start - 5, span.end + 5]`; (2) if rule 1 found nothing but a
"sent" or "received" span was detected, the quantity is 0; (3) with no
header spans at all, the quantity is the digit-token with the largest
`left` among all digit-tokens of the line. -/
theorem C2_three_tier (span_env span_rec : Option Span) (g : List OcrToken)
    (it : Item) (hit : parseLine span_env span_rec g = some it) :
    (∀ sp : Span, span_rec = some sp →
      (∃ t, t ∈ g ∧ isDigitsStr t.text = true ∧ inSpanTok sp t = true) →
      ∃ t, t ∈ g ∧ isDigitsStr t.text = true ∧ inSpanTok sp t = true ∧
        (∀ u, u ∈ g → isDigitsStr u.text = true → inSpanTok sp u = true →
          u.left ≤ t.left) ∧
        it.un_recibidas = natOfText t.text) ∧
    (∀ sp : Span, span_rec = some sp →
      (∀ t, t ∈ g → isDigitsStr t.text = true → inSpanTok sp t = false) →
      it.un_recibidas = 0) ∧
    (span_rec = none → span_env ≠ none → it.un_recibidas = 0) ∧
    (span_rec = none → span_env = none →
      ∃ t, t ∈ g ∧ isDigitsStr t.text = true ∧
        (∀ u, u ∈ g → isDigitsStr u.text = true → u.left ≤ t.left) ∧
        it.un_recibidas = natOfText t.text) := by
  rw [parseLine_eq] at hit
  rcases hf : findSku (lineTxt g) with _ | sku
  · rw [hf] at hit; simp at hit
  rw [hf] at hit
  rcases hl : (lineDigits g).getLast? with _ | tLast
  · rw [hl] at hit; simp at hit
  rw [hl] at hit
  simp only [Option.some.injEq] at hit
  subst hit
  refine ⟨?_, ?_, ?_, ?_⟩
  · rintro sp hsp ⟨t, ht, htd, hts⟩
    subst hsp
    have hcand_ne : (lineDigits g).filter (inSpanTok sp) ≠ [] :=
      List.ne_nil_of_mem (List.mem_filter.mpr ⟨mem_lineDigits.mpr ⟨ht, htd⟩, hts⟩)
    rcases Option.isSome_iff_exists.mp (List.getLast?_isSome.mpr hcand_ne) with ⟨t0, h0⟩
    have ht0 := List.mem_filter.mp (List.mem_of_mem_getLast? h0)
    have hmax := getLast?_max (List.Pairwise.filter _ (sorted_lineDigits g)) h0
    refine ⟨t0, (mem_lineDigits.mp ht0.1).1, (mem_lineDigits.mp ht0.1).2, ht0.2,
      ?_, ?_⟩
    · intro u hu hud hus
      exact hmax u (List.mem_filter.mpr ⟨mem_lineDigits.mpr ⟨hu, hud⟩, hus⟩)
    · exact quantityOf_rule1 span_env sp _ tLast t0 h0
  · intro sp hsp hnone
    subst hsp
    have hcand : (lineDigits g).filter (inSpanTok sp) = [] := by
      rw [List.eq_nil_iff_forall_not_mem]
      intro u hu
      rcases List.mem_filter.mp hu with ⟨hu1, hu2⟩
      rcases mem_lineDigits.mp hu1 with ⟨hug, hud⟩
      rw [hnone u hug hud] at hu2
      exact Bool.false_ne_true hu2
    have h0 : ((lineDigits g).filter (inSpanTok sp)).getLast? = none := by
      rw [hcand]; rfl
    exact quantityOf_rule2a span_env sp _ tLast h0
  · intro h1 h2
    subst h1
    rcases hse : span_env with _ | spe
    · exact absurd hse h2
    · subst hse
      exact quantityOf_rule2b spe (lineDigits g) tLast
  · intro h1 h2
    subst h1
    subst h2
    have htL := mem_lineDigits.mp (List.mem_of_mem_getLast? hl)
    have hmax := getLast?_max (sorted_lineDigits g) hl
    exact ⟨tLast, htL.1, htL.2,
      fun u hu hud => hmax u (mem_lineDigits.mpr ⟨hu, hud⟩),
      quantityOf_rule3 (lineDigits g) tLast⟩

/-- C6: a line cluster whose space-stripped concatenated text contains
no contiguous run of 10 or more digits yields no record, and a line
cluster with no digit-only tokens yields no record even when an
identifier run was found; both are skipped without error. -/
theorem C6_line_skip (span_env span_rec : Option Span) (g : List OcrToken) :
    (hasRun 10 (lineTxt g) = false → parseLine span_env span_rec g = none) ∧
    (g.filter (fun t => isDigitsStr t.text) = [] →
      parseLine span_env span_rec g = none) := by
  constructor
  · intro h
    rw [parseLine_eq, findSku_none_of_noRun _ h]
  · intro h
    have hd : lineDigits g = [] := by
      have hperm := sortByLeft_filter_perm (fun t => isDigitsStr t.text) g
      rw [h] at hperm
      exact hperm.eq_nil
    rw [parseLine_eq, hd]
    cases findSku (lineTxt g) <;> rfl

/-- Witness for C6 at two concrete lines: a line with no long digit run,
and a line with a 10-digit run glued to a letter (so no digit-only
token). -/
theorem C6_line_skip_witness :
    parseLine none none [⟨"hello", 0, 10, 90⟩] = none ∧
    parseLine none none [⟨"1234567890a", 0, 5, 90⟩] = none :=
  ⟨(C6_line_skip none none [⟨"hello", 0, 10, 90⟩]).1 (by decide),
   (C6_line_skip none none [⟨"1234567890a", 0, 5, 90⟩]).2 (by decide)⟩

/-- Witness for C2 at the spec's no-header example: digit tokens "3" at
x=50 and "40" at x=300 with no header spans; the quantity falls back to
the rightmost digit token, 40. -/
theorem C2_three_tier_witness :
    ∃ t, t ∈ [(⟨"17802345678901", 0, 40, 90⟩ : OcrToken),
              ⟨"3", 50, 4, 90⟩, ⟨"40", 300, 8, 90⟩] ∧
      isDigitsStr t.text = true ∧
      (∀ u, u ∈ [(⟨"17802345678901", 0, 40, 90⟩ : OcrToken),
                 ⟨"3", 50, 4, 90⟩, ⟨"40", 300, 8, 90⟩] →
        isDigitsStr u.text = true → u.left ≤ t.left) ∧
      (⟨"1780234567890134", 40⟩ : Item).un_recibidas = natOfText t.text :=
  (C2_three_tier none none
      [⟨"17802345678901", 0, 40, 90⟩, ⟨"3", 50, 4, 90⟩, ⟨"40", 300, 8, 90⟩]
      ⟨"1780234567890134", 40⟩ (by decide)).2.2.2 rfl rfl

/-- C5: for each header category at most one span is kept: none when no
token matches the pattern case-insensitively; otherwise the span is
`[left, left + width]` of a matching token of maximal confidence, ties
broken by larger width. -/
theorem C5_header_span (df : List OcrToken) (pat : String) :
    (df.filter (fun t => containsCI t.text pat) = [] →
      find_col_span df pat = none) ∧
    (df.filter (fun t => containsCI t.text pat) ≠ [] →
      ∃ t, t ∈ df ∧ containsCI t.text pat = true ∧
        (∀ u, u ∈ df → containsCI u.text pat = true →
          u.conf < t.conf ∨ (u.conf = t.conf ∧ u.width ≤ t.width)) ∧
        find_col_span df pat = some (t.left, t.left + t.width)) := by
  constructor
  · intro h
    simp [find_col_span, h]
  · intro h
    have hne : List.insertionSort confWidthGE
        (df.filter (fun t => containsCI t.text pat)) ≠ [] := by
      intro h0
      have hp := List.perm_insertionSort confWidthGE
        (df.filter (fun t => containsCI t.text pat))
      rw [h0] at hp
      exact h hp.symm.eq_nil
    rcases hhead : (List.insertionSort confWidthGE
        (df.filter (fun t => containsCI t.text pat))).head? with _ | r
    · exact absurd (List.head?_eq_none_iff.mp hhead) hne
    · rcases head_best _ r hhead with ⟨hrm, hbest⟩
      rcases List.mem_filter.mp hrm with ⟨hrdf, hrpat⟩
      refine ⟨r, hrdf, hrpat, ?_, ?_⟩
      · intro u hu hup
        rcases hbest u (List.mem_filter.mpr ⟨hu, hup⟩) with h1 | ⟨h1, h2⟩
        · exact Or.inl h1
        · exact Or.inr ⟨h1.symm, h2⟩
      · simp [find_col_span, hhead]

/-- Witness for C5: two RECIBIDAS candidates; the higher-confidence one
(conf 95, at x=200, width 60) defines the span (200, 260). -/
theorem C5_header_span_witness :
    ∃ t, t ∈ [(⟨"RECIBIDAS", 200, 60, 95⟩ : OcrToken), ⟨"RECIBIDAS", 10, 50, 80⟩] ∧
      containsCI t.text "RECIB" = true ∧
      (∀ u, u ∈ [(⟨"RECIBIDAS", 200, 60, 95⟩ : OcrToken), ⟨"RECIBIDAS", 10, 50, 80⟩] →
        containsCI u.text "RECIB" = true →
        u.conf < t.conf ∨ (u.conf = t.conf ∧ u.width ≤ t.width)) ∧
      find_col_span [⟨"RECIBIDAS", 200, 60, 95⟩, ⟨"RECIBIDAS", 10, 50, 80⟩] "RECIB" =
        some (t.left, t.left + t.width) :=
  (C5_header_span [⟨"RECIBIDAS", 200, 60, 95⟩, ⟨"RECIBIDAS", 10, 50, 80⟩]
    "RECIB").2 (by decide)

/-- Counterexample to C10 as stated: (a) a line whose space-stripped
text has a 17-digit run but whose only token is not digit-only yields no
record at all; (b) a line with an earlier 10-digit run and a later
17-digit run yields a record whose raw identifier is the earlier run,
not the first 16 digits of the 17-digit run. -/
theorem C10_truncation_counterexample :
    (hasRun 17 (lineTxt [⟨"12345678901234567x", 0, 9, 90⟩]) = true ∧
     parseLine none none [⟨"12345678901234567x", 0, 9, 90⟩] = none) ∧
    (hasRun 17 (lineTxt [⟨"1234567890", 0, 4, 90⟩, ⟨"x", 10, 2, 90⟩,
        ⟨"12345678901234567", 20, 8, 90⟩]) = true ∧
     parseLine none none [⟨"1234567890", 0, 4, 90⟩, ⟨"x", 10, 2, 90⟩,
        ⟨"12345678901234567", 20, 8, 90⟩] =
       some ⟨"1234567890", 12345678901234567⟩ ∧
     ("1234567890" : String) ≠ "1234567890123456") := by
  decide

/-- C10 (amended): for every line cluster that has at least one
digit-only token and whose space-stripped text's leftmost run of at
least 10 consecutive digits is longer than 16 digits, a record is still
produced and its raw identifier is exactly the first 16 digits of that
run (prefix truncation), rather than the line being skipped for lacking
a 10–16 digit run. -/
theorem C10_truncation (span_env span_rec : Option Span) (g : List OcrToken)
    (i : Nat) (hdig : g.filter (fun t => isDigitsStr t.text) ≠ [])
    (hge : 17 ≤ (((lineTxt g).drop i).takeWhile Char.isDigit).length)
    (hmin : ∀ j < i, (((lineTxt g).drop j).takeWhile Char.isDigit).length < 10) :
    ∃ it, parseLine span_env span_rec g = some it ∧
      it.sku = String.mk ((((lineTxt g).drop i).takeWhile Char.isDigit).take 16) ∧
      it.sku.length = 16 := by
  have hsku := findSku_at (lineTxt g) i (by omega) hmin
  have hd_ne : lineDigits g ≠ [] := by
    intro h0
    apply hdig
    have hperm : (lineDigits g).Perm (g.filter (fun t => isDigitsStr t.text)) :=
      sortByLeft_filter_perm (fun t => isDigitsStr t.text) g
    rw [h0] at hperm
    exact hperm.symm.eq_nil
  rcases Option.isSome_iff_exists.mp (List.getLast?_isSome.mpr hd_ne) with ⟨tLast, hl⟩
  refine ⟨⟨String.mk ((((lineTxt g).drop i).takeWhile Char.isDigit).take 16),
    quantityOf span_env span_rec (lineDigits g) tLast⟩, ?_, rfl, ?_⟩
  · rw [parseLine_eq, hsku, hl]
  · have hlen : (String.mk ((((lineTxt g).drop i).takeWhile Char.isDigit).take 16)).length
        = ((((lineTxt g).drop i).takeWhile Char.isDigit).take 16).length := rfl
    rw [hlen, List.length_take]
    omega

/-- Witness for C10 (amended) at a single 17-digit token. -/
theorem C10_truncation_witness :
    ∃ it, parseLine none none [⟨"12345678901234567", 0, 8, 90⟩] = some it ∧
      it.sku = String.mk ((((lineTxt [⟨"12345678901234567", 0, 8, 90⟩]).drop 0).takeWhile
        Char.isDigit).take 16) ∧
      it.sku.length = 16 :=
  C10_truncation none none [⟨"12345678901234567", 0, 8, 90⟩] 0
    (by decide) (by decide) (fun j hj => absurd hj (by omega))

/-- C4: the canonicalizer agrees with "strip one leading apostrophe,
then drop every non-digit": the two worked examples hold, and a record
whose canonical identifier is empty contributes nothing to the output
batch (silently skipped). -/
theorem C4_canonicalize :
    (∀ raw : String, clean_sku (some raw) = specCanonicalize raw) ∧
    clean_sku (some "'1780234567890") = "1780234567890" ∧
    clean_sku (some "abc") = "" ∧
    (∀ (existing : List RKey) (message_id fecha ihash origin : String)
       (it : Item) (rest : List Item), clean_sku (some it.sku) = "" →
       processItems existing message_id fecha ihash origin (it :: rest) =
         processItems existing message_id fecha ihash origin rest) := by
  refine ⟨?_, by decide, by decide, ?_⟩
  · intro raw
    rw [clean_sku_eq_digits, specCanonicalize_eq_digits]
  · intro existing message_id fecha ihash origin it rest h
    simp [processItems, h]

/-- Witness for C4: an item whose identifier canonicalizes to empty is
dropped, leaving an empty batch. -/
theorem C4_canonicalize_witness :
    processItems [] "m" "f" "h" "o" [⟨"abc", 3⟩] = [] :=
  C4_canonicalize.2.2.2 [] "m" "f" "h" "o" ⟨"abc", 3⟩ [] (by decide)

/-- Field bounds under which `strftime`-style formatting is modelled
exactly (four-digit year, two-digit components). -/
def goodTS (t : TS) : Prop :=
  t.y < 10000 ∧ t.mo < 100 ∧ t.d < 100 ∧ t.h < 100 ∧ t.mi < 100 ∧ t.s < 100

instance : DecidablePred goodTS := fun t => by
  unfold goodTS; infer_instance

/-- A block of exactly `n` decimal digit characters. -/
def digitsBlock (l : List Char) (n : Nat) : Prop :=
  l.length = n ∧ ∀ c ∈ l, c.isDigit = true

/-- The shape `YYYY-MM-DD HH:MM:SS`. -/
def isYMDHMS (str : String) : Prop :=
  ∃ Y MO D H MI S : List Char,
    str.data = Y ++ '-' :: MO ++ '-' :: D ++ ' ' :: H ++ ':' :: MI ++ ':' :: S ∧
    digitsBlock Y 4 ∧ digitsBlock MO 2 ∧ digitsBlock D 2 ∧
    digitsBlock H 2 ∧ digitsBlock MI 2 ∧ digitsBlock S 2

theorem digitChar_digit (m : Nat) (h : m < 10) : (Nat.digitChar m).isDigit = true := by
  interval_cases m <;> decide

theorem fmt2_block (n : Nat) : digitsBlock (fmt2 n) 2 := by
  refine ⟨rfl, ?_⟩
  intro c hc
  simp only [fmt2, List.mem_cons, List.not_mem_nil, or_false] at hc
  rcases hc with h | h <;> subst h <;>
    exact digitChar_digit _ (Nat.mod_lt _ (by omega))

theorem fmt4_block (n : Nat) : digitsBlock (fmt4 n) 4 := by
  refine ⟨rfl, ?_⟩
  intro c hc
  simp only [fmt4, List.mem_cons, List.not_mem_nil, or_false] at hc
  rcases hc with h | h | h | h <;> subst h <;>
    exact digitChar_digit _ (Nat.mod_lt _ (by omega))

/-- C8: the date string, when it parses, is converted to the fixed
target time zone and formatted `YYYY-MM-DD HH:MM:SS`; an unparseable or
absent date falls back to the current local time in the same format, so
the function always produces a value (no row is lost over a bad date),
and every produced value has the `YYYY-MM-DD HH:MM:SS` shape. -/
theorem C8_date (pdToDatetime : String → Option TS) (tzSantiago : TS → TS) (now : TS) :
    (∀ s t, pdToDatetime s = some t →
      parse_gmail_date pdToDatetime tzSantiago now (some s) = fmtTS (tzSantiago t)) ∧
    (∀ s, pdToDatetime s = none →
      parse_gmail_date pdToDatetime tzSantiago now (some s) = fmtTS now) ∧
    parse_gmail_date pdToDatetime tzSantiago now none = fmtTS now ∧
    (∀ t : TS, goodTS t → isYMDHMS (fmtTS t)) := by
  refine ⟨?_, ?_, rfl, ?_⟩
  · intro s t h
    simp [parse_gmail_date, h]
  · intro s h
    simp [parse_gmail_date, h]
  · intro t _
    exact ⟨fmt4 t.y, fmt2 t.mo, fmt2 t.d, fmt2 t.h, fmt2 t.mi, fmt2 t.s, rfl,
      fmt4_block t.y, fmt2_block t.mo, fmt2_block t.d,
      fmt2_block t.h, fmt2_block t.mi, fmt2_block t.s⟩

/-- Witness for C8 at a concrete parse result and a concrete fallback
time. -/
theorem C8_date_witness :
    parse_gmail_date (fun _ => some ⟨2024, 5, 6, 7, 8, 9⟩) id ⟨2025, 1, 2, 3, 4, 5⟩
        (some "Mon, 6 May 2024 07:08:09 +0000") = fmtTS ⟨2024, 5, 6, 7, 8, 9⟩ ∧
    isYMDHMS (fmtTS ⟨2024, 5, 6, 7, 8, 9⟩) := by
  have h := C8_date (fun _ => some (⟨2024, 5, 6, 7, 8, 9⟩ : TS)) id ⟨2025, 1, 2, 3, 4, 5⟩
  exact ⟨h.1 _ _ rfl, h.2.2.2 _ (by decide)⟩

/-- C9: the content fingerprint is deterministic: the digest depends
only on the encoded bytes of the normalized image, so encoding the same
pixel buffer yields the same digest in both runs, and the digest is 64
hexadecimal characters — 256 bits. -/
theorem C9_fingerprint {α : Type} (pngEncode : α → List Nat) (i1 i2 : α)
    (h : pngEncode i1 = pngEncode i2) :
    hash_image pngEncode i1 = hash_image pngEncode i2 ∧
    (hash_image pngEncode i1).length = 64 := by
  constructor
  · unfold hash_image
    rw [h]
  · rfl

/-- Witness for C9: hashing the empty byte buffer twice. -/
theorem C9_fingerprint_witness :
    hash_image (fun _ : Unit => ([] : List Nat)) () =
      hash_image (fun _ : Unit => ([] : List Nat)) () ∧
    (hash_image (fun _ : Unit => ([] : List Nat)) ()).length = 64 :=
  C9_fingerprint (fun _ : Unit => []) () () rfl

theorem itemKeys_cons (mid : String) (it : Item) (rest : List Item) :
    itemKeys mid (it :: rest) =
      if clean_sku (some it.sku) = "" then itemKeys mid rest
      else (mid, clean_sku (some it.sku), pyStripStr (toString it.un_recibidas)) ::
        itemKeys mid rest := by
  unfold itemKeys
  rw [List.filterMap_cons]
  by_cases h : clean_sku (some it.sku) = ""
  · simp [h]
  · simp [h]

theorem processItems_eq_nil (E : List RKey) (mid f hh o : String) (items : List Item)
    (h : ∀ k ∈ itemKeys mid items, k ∈ E) :
    processItems E mid f hh o items = [] := by
  induction items with
  | nil => rfl
  | cons it rest ih =>
    have hsub : ∀ k ∈ itemKeys mid rest, k ∈ E := by
      intro k hk
      apply h
      rw [itemKeys_cons]
      split_ifs
      · exact hk
      · exact List.mem_cons_of_mem _ hk
    simp only [processItems]
    by_cases hsc : clean_sku (some it.sku) = ""
    · rw [if_pos hsc]
      exact ih hsub
    · rw [if_neg hsc]
      have hkey : (mid, clean_sku (some it.sku),
          pyStripStr (toString it.un_recibidas)) ∈ E := by
        apply h
        rw [itemKeys_cons, if_neg hsc]
        exact List.mem_cons_self _ _
      rw [if_pos hkey]
      exact ih hsub

theorem processItems_covers (E : List RKey) (mid f hh o : String) (items : List Item)
    (k : RKey) (hk : k ∈ itemKeys mid items) (hkE : k ∉ E) :
    k ∈ (processItems E mid f hh o items).map rowKey := by
  induction items with
  | nil => simp [itemKeys] at hk
  | cons it rest ih =>
    rw [itemKeys_cons] at hk
    simp only [processItems]
    by_cases hsc : clean_sku (some it.sku) = ""
    · rw [if_pos hsc] at hk
      rw [if_pos hsc]
      exact ih hk
    · rw [if_neg hsc] at hk
      rw [if_neg hsc]
      rcases List.mem_cons.mp hk with h1 | h1
      · subst h1
        rw [if_neg hkE, List.map_cons]
        exact List.mem_cons_self _ _
      · by_cases hkey : (mid, clean_sku (some it.sku),
            pyStripStr (toString it.un_recibidas)) ∈ E
        · rw [if_pos hkey]
          exact ih h1
        · rw [if_neg hkey, List.map_cons]
          exact List.mem_cons_of_mem _ (ih h1)

theorem processItems_mem (E : List RKey) (mid f hh o : String) (items : List Item)
    (row : Row) (h : row ∈ processItems E mid f hh o items) :
    rowKey row ∈ itemKeys mid items ∧ rowKey row ∉ E ∧
    clean_sku (some row.sku) = row.sku ∧ row.message_id = mid := by
  induction items with
  | nil => simp [processItems] at h
  | cons it rest ih =>
    simp only [processItems] at h
    by_cases hsc : clean_sku (some it.sku) = ""
    · rw [if_pos hsc] at h
      obtain ⟨h1, h2, h3, h4⟩ := ih h
      exact ⟨by rw [itemKeys_cons, if_pos hsc]; exact h1, h2, h3, h4⟩
    · rw [if_neg hsc] at h
      by_cases hkey : (mid, clean_sku (some it.sku),
          pyStripStr (toString it.un_recibidas)) ∈ E
      · rw [if_pos hkey] at h
        obtain ⟨h1, h2, h3, h4⟩ := ih h
        refine ⟨?_, h2, h3, h4⟩
        rw [itemKeys_cons, if_neg hsc]
        exact List.mem_cons_of_mem _ h1
      · rw [if_neg hkey] at h
        rcases List.mem_cons.mp h with h1 | h1
        · subst h1
          refine ⟨?_, hkey, clean_sku_idem it.sku, rfl⟩
          rw [itemKeys_cons, if_neg hsc]
          exact List.mem_cons_self _ _
        · obtain ⟨h2, h3, h4, h5⟩ := ih h1
          refine ⟨?_, h3, h4, h5⟩
          rw [itemKeys_cons, if_neg hsc]
          exact List.mem_cons_of_mem _ h2

theorem imageKeys_cons (mid : String) (im : MsgImage) (rest : List MsgImage) :
    imageKeys mid (im :: rest) =
      itemKeys mid (parse_table im.lines) ++ imageKeys mid rest := by
  simp [imageKeys]

theorem msgKeys_cons (m : GMsg) (rest : List GMsg) :
    msgKeys (m :: rest) = imageKeys m.id m.images ++ msgKeys rest := by
  simp [msgKeys]

theorem processImages_eq_nil (E : List RKey) (mid f : String) (imgs : List MsgImage)
    (h : ∀ k ∈ imageKeys mid imgs, k ∈ E) :
    processImages E mid f imgs = [] := by
  induction imgs with
  | nil => rfl
  | cons im rest ih =>
    simp only [processImages]
    rw [processItems_eq_nil _ _ _ _ _ _
      (fun k hk => h k (by rw [imageKeys_cons]; exact List.mem_append_left _ hk))]
    rw [List.nil_append]
    exact ih (fun k hk => h k (by rw [imageKeys_cons]; exact List.mem_append_right _ hk))

theorem processImages_covers (E : List RKey) (mid f : String) (imgs : List MsgImage)
    (k : RKey) (hk : k ∈ imageKeys mid imgs) (hkE : k ∉ E) :
    k ∈ (processImages E mid f imgs).map rowKey := by
  induction imgs with
  | nil => simp [imageKeys] at hk
  | cons im rest ih =>
    rw [imageKeys_cons] at hk
    simp only [processImages, List.map_append]
    rcases List.mem_append.mp hk with h1 | h1
    · exact List.mem_append_left _
        (processItems_covers _ _ _ _ _ _ _ h1 hkE)
    · exact List.mem_append_right _ (ih h1)

theorem processImages_mem (E : List RKey) (mid f : String) (imgs : List MsgImage)
    (row : Row) (h : row ∈ processImages E mid f imgs) :
    rowKey row ∈ imageKeys mid imgs ∧ rowKey row ∉ E ∧
    clean_sku (some row.sku) = row.sku ∧ row.message_id = mid := by
  induction imgs with
  | nil => simp [processImages] at h
  | cons im rest ih =>
    simp only [processImages] at h
    rcases List.mem_append.mp h with h1 | h1
    · obtain ⟨h2, h3, h4, h5⟩ := processItems_mem _ _ _ _ _ _ _ h1
      refine ⟨?_, h3, h4, h5⟩
      rw [imageKeys_cons]
      exact List.mem_append_left _ h2
    · obtain ⟨h2, h3, h4, h5⟩ := ih h1
      refine ⟨?_, h3, h4, h5⟩
      rw [imageKeys_cons]
      exact List.mem_append_right _ h2

theorem mainRows_eq_nil (pd : String → Option TS) (tz : TS → TS) (now : TS)
    (E : List RKey) (msgs : List GMsg)
    (h : ∀ k ∈ msgKeys msgs, k ∈ E) :
    mainRows pd tz now E msgs = [] := by
  induction msgs with
  | nil => rfl
  | cons m rest ih =>
    simp only [mainRows]
    rw [processImages_eq_nil _ _ _ _
      (fun k hk => h k (by rw [msgKeys_cons]; exact List.mem_append_left _ hk))]
    rw [List.nil_append]
    exact ih (fun k hk => h k (by rw [msgKeys_cons]; exact List.mem_append_right _ hk))

theorem mainRows_covers (pd : String → Option TS) (tz : TS → TS) (now : TS)
    (E : List RKey) (msgs : List GMsg) (k : RKey)
    (hk : k ∈ msgKeys msgs) (hkE : k ∉ E) :
    k ∈ (mainRows pd tz now E msgs).map rowKey := by
  induction msgs with
  | nil => simp [msgKeys] at hk
  | cons m rest ih =>
    rw [msgKeys_cons] at hk
    simp only [mainRows, List.map_append]
    rcases List.mem_append.mp hk with h1 | h1
    · exact List.mem_append_left _ (processImages_covers _ _ _ _ _ h1 hkE)
    · exact List.mem_append_right _ (ih h1)

theorem mainRows_mem (pd : String → Option TS) (tz : TS → TS) (now : TS)
    (E : List RKey) (msgs : List GMsg) (row : Row)
    (h : row ∈ mainRows pd tz now E msgs) :
    rowKey row ∈ msgKeys msgs ∧ rowKey row ∉ E ∧
    clean_sku (some row.sku) = row.sku := by
  induction msgs with
  | nil => simp [mainRows] at h
  | cons m rest ih =>
    simp only [mainRows] at h
    rcases List.mem_append.mp h with h1 | h1
    · obtain ⟨h2, h3, h4, _⟩ := processImages_mem _ _ _ _ _ h1
      refine ⟨?_, h3, h4⟩
      rw [msgKeys_cons]
      exact List.mem_append_left _ h2
    · obtain ⟨h2, h3, h4⟩ := ih h1
      refine ⟨?_, h3, h4⟩
      rw [msgKeys_cons]
      exact List.mem_append_right _ h2

theorem read_existing_append (a b : List Row) :
    read_existing (a ++ b) = read_existing a ++ read_existing b :=
  List.map_append _ a b

theorem rowKey_mem_read_existing (rows : List Row) (row : Row)
    (hrow : row ∈ rows) (hidem : clean_sku (some row.sku) = row.sku) :
    rowKey row ∈ read_existing rows := by
  unfold read_existing
  have : rowKey row = (row.message_id, clean_sku (some row.sku), row.un_rec) := by
    rw [hidem]; rfl
  rw [this]
  exact List.mem_map.mpr ⟨row, hrow, rfl⟩

/-- Counterexample to C1 as stated: the run loop never inserts emitted
keys into any in-run tracking set, so a message whose image produces the
same line twice (two overlapping OCR groupings of one physical line)
yields two output rows with the identical full key, even against an
empty ledger. -/
theorem C1_dedup_counterexample :
    (mainRows (fun _ => none) id ⟨2025, 1, 1, 0, 0, 0⟩ []
      [⟨"m1", none, [⟨"att", [],
        [[⟨"1234567890", 0, 4, 90⟩], [⟨"1234567890", 0, 4, 90⟩]]⟩]⟩]).map rowKey =
    [("m1", "1234567890", "1234567890"), ("m1", "1234567890", "1234567890")] := by
  decide

/-- C1 (amended): every newly extracted record's key
`(message_id, canonical identifier, quantity-as-string)` is included in
the output batch only if it is absent from the ledger index loaded at
the start of the run; but the code maintains no in-run tracking set, so
the same key extracted twice within a run yields two rows in the output
batch (see the counterexample). -/
theorem C1_ledger_filter (pd : String → Option TS) (tz : TS → TS) (now : TS)
    (existing : List RKey) (msgs : List GMsg) :
    ∀ row ∈ mainRows pd tz now existing msgs, rowKey row ∉ existing :=
  fun _ h => (mainRows_mem pd tz now existing msgs _ h).2.1

/-- Witness for C1 (amended): the single row extracted against a
disjoint ledger carries a key absent from that ledger. -/
theorem C1_ledger_filter_witness :
    rowKey ⟨fmtTS ⟨2025, 1, 1, 0, 0, 0⟩, "1234567890", "1234567890", "m1",
      sha256hex [], "att"⟩ ∉ [(("x", "y", "z") : RKey)] :=
  C1_ledger_filter (fun _ => none) id ⟨2025, 1, 1, 0, 0, 0⟩ [("x", "y", "z")]
    [⟨"m1", none, [⟨"att", [], [[⟨"1234567890", 0, 4, 90⟩]]⟩]⟩] _ (by decide)

/-- C3: running the pipeline a second time over the same message set
(same deterministic OCR output), with the ledger index reloaded from
the state the first run appended, produces zero new rows — every key
extracted in the second run is already in the loaded index.  The wall
clock (`now`) may differ between the runs. -/
theorem C3_idempotent (pd : String → Option TS) (tz : TS → TS) (now1 now2 : TS)
    (sheet : List Row) (msgs : List GMsg) :
    mainRows pd tz now2
      (read_existing (sheet ++ mainRows pd tz now1 (read_existing sheet) msgs))
      msgs = [] := by
  apply mainRows_eq_nil
  intro k hk
  rw [read_existing_append]
  by_cases hE : k ∈ read_existing sheet
  · exact List.mem_append_left _ hE
  · apply List.mem_append_right
    have hcov := mainRows_covers pd tz now1 (read_existing sheet) msgs k hk hE
    rcases List.mem_map.mp hcov with ⟨row, hrow, hkey⟩
    have hidem := (mainRows_mem pd tz now1 (read_existing sheet) msgs row hrow).2.2
    rw [← hkey]
    exact rowKey_mem_read_existing _ row hrow hidem

theorem pickLoop_filterMap (pf : String → Option Int) (idx_sku idx_unr : Nat)
    (idx_flag : Option Nat) (i : Nat) (body : List (List String))
    (hlen : ∀ r ∈ body, max idx_sku idx_unr < r.length) :
    (pickLoop pf idx_sku idx_unr idx_flag i body).1 =
      body.filterMap (specSelect pf idx_sku idx_unr idx_flag) := by
  induction body generalizing i with
  | nil => rfl
  | cons r rest ih =>
    have hr := hlen r (List.mem_cons_self _ _)
    have hrest : ∀ q ∈ rest, max idx_sku idx_unr < q.length :=
      fun q hq => hlen q (List.mem_cons_of_mem _ hq)
    have hnext := ih (i + 1) hrest
    simp only [pickLoop, List.filterMap_cons]
    rw [if_neg (by omega)]
    rcases idx_flag with _ | j
    · rw [if_neg (show ¬(false = true) by simp)]
      by_cases hsku : String.mk (digitsOnly (r.getD idx_sku "").data) = ""
      · have hsel : specSelect pf idx_sku idx_unr none r = none := by
          unfold specSelect
          exact if_neg (fun hc => hc.1 hsku)
        rw [if_pos hsku, hsel]
        exact hnext
      · rw [if_neg hsku]
        by_cases hqty : 0 < (match pf ((r.getD idx_unr "").replace "," ".") with
            | some q => q
            | none => 0)
        · have hsel : specSelect pf idx_sku idx_unr none r =
              some (String.mk (digitsOnly (r.getD idx_sku "").data),
                match pf ((r.getD idx_unr "").replace "," ".") with
                | some q => q
                | none => 0) := by
            unfold specSelect
            exact if_pos ⟨hsku, rfl, hqty⟩
          rw [if_pos hqty, hsel]
          show (String.mk (digitsOnly (r.getD idx_sku "").data),
              (match pf ((r.getD idx_unr "").replace "," ".") with
               | some q => q
               | none => 0)) :: (pickLoop pf idx_sku idx_unr none (i + 1) rest).1 = _
          rw [hnext]
        · have hsel : specSelect pf idx_sku idx_unr none r = none := by
            unfold specSelect
            exact if_neg (fun hc => hqty hc.2.2)
          rw [if_neg hqty, hsel]
          exact hnext
    · by_cases hB : (decide (j < r.length) &&
          decide (pyStripStr (r.getD j "") ≠ "")) = true
      · have hsel : specSelect pf idx_sku idx_unr (some j) r = none := by
          unfold specSelect
          refine if_neg (fun hc => ?_)
          have hnot : (!(decide (j < r.length) &&
              decide (pyStripStr (r.getD j "") ≠ ""))) = true := hc.2.1
          rw [Bool.not_eq_true'] at hnot
          rw [hnot] at hB
          simp at hB
        rw [if_pos hB, hsel]
        exact hnext
      · have hblank : (!(decide (j < r.length) &&
            decide (pyStripStr (r.getD j "") ≠ ""))) = true := by
          simp only [Bool.not_eq_true']
          simpa using hB
        rw [if_neg hB]
        by_cases hsku : String.mk (digitsOnly (r.getD idx_sku "").data) = ""
        · have hsel : specSelect pf idx_sku idx_unr (some j) r = none := by
            unfold specSelect
            exact if_neg (fun hc => hc.1 hsku)
          rw [if_pos hsku, hsel]
          exact hnext
        · rw [if_neg hsku]
          by_cases hqty : 0 < (match pf ((r.getD idx_unr "").replace "," ".") with
              | some q => q
              | none => 0)
          · have hsel : specSelect pf idx_sku idx_unr (some j) r =
                some (String.mk (digitsOnly (r.getD idx_sku "").data),
                  match pf ((r.getD idx_unr "").replace "," ".") with
                  | some q => q
                  | none => 0) := by
              unfold specSelect
              exact if_pos ⟨hsku, hblank, hqty⟩
            rw [if_pos hqty, hsel]
            show (String.mk (digitsOnly (r.getD idx_sku "").data),
                (match pf ((r.getD idx_unr "").replace "," ".") with
                 | some q => q
                 | none => 0)) :: (pickLoop pf idx_sku idx_unr (some j) (i + 1) rest).1 = _
            rw [hnext]
          · have hsel : specSelect pf idx_sku idx_unr (some j) r = none := by
              unfold specSelect
              exact if_neg (fun hc => hqty hc.2.2)
            rw [if_neg hqty, hsel]
            exact hnext

/-- C7: on a sheet whose data rows reach the mandatory columns, the
forwarding stage selects exactly the rows whose canonicalized
identifier is non-empty, whose quantity parses to a positive integer
(an unparseable quantity counting as 0), and whose sent-flag cell, when
the flag column exists, is blank; rows with quantity 0, negative or
unparseable quantity, or a non-empty sent flag, are never forwarded. -/
theorem C7_forwarding (pf : String → Option Int) (header0 : List String)
    (body : List (List String)) (pending : List (String × Int)) (idxs : List Nat)
    (hrun : pick_rows pf (header0 :: body) = some (pending, idxs))
    (hlen : ∀ r ∈ body,
      max ((header0.map stripLower).indexOf "sku")
          ((header0.map stripLower).indexOf "un_recibidas") < r.length) :
    pending = body.filterMap (specSelect pf
      ((header0.map stripLower).indexOf "sku")
      ((header0.map stripLower).indexOf "un_recibidas")
      (if "parrotfy_enviado" ∈ header0.map stripLower then
        some ((header0.map stripLower).indexOf "parrotfy_enviado") else none)) := by
  simp only [pick_rows] at hrun
  by_cases h1 : "sku" ∈ header0.map stripLower
  case neg => rw [if_neg h1] at hrun; exact absurd hrun (by simp)
  rw [if_pos h1] at hrun
  by_cases h2 : "un_recibidas" ∈ header0.map stripLower
  case neg => rw [if_neg h2] at hrun; exact absurd hrun (by simp)
  rw [if_pos h2] at hrun
  have hpair := Option.some.inj hrun
  have hp := congrArg Prod.fst hpair
  simp only at hp
  rw [← hp]
  exact pickLoop_filterMap pf _ _ _ 2 body hlen

/-- Witness for C7 at a one-row sheet with a positive quantity. -/
theorem C7_forwarding_witness :
    [("123", (3 : Int))] = [["123", "3"]].filterMap (specSelect (fun _ => some (3 : Int))
      (((["sku", "un_recibidas"] : List String).map stripLower).indexOf "sku")
      (((["sku", "un_recibidas"] : List String).map stripLower).indexOf "un_recibidas")
      (if "parrotfy_enviado" ∈ (["sku", "un_recibidas"] : List String).map stripLower then
        some (((["sku", "un_recibidas"] : List String).map stripLower).indexOf
          "parrotfy_enviado") else none)) :=
  C7_forwarding (fun _ => some 3) ["sku", "un_recibidas"] [["123", "3"]]
    [("123", 3)] [2] (by decide) (by decide)
